import Mathlib

/-!
Shallow embedding of `WindFetch.py` (class `WaterBody`) and proofs about it.

Conventions used throughout:

* A 2-D numpy float array is represented in column-major form as
  `List (List (Option ℚ))`: the outer list is the list of columns, so that
  `np.ndarray.flatten(order="F")` is `List.flatten`.  The cell value `none`
  represents IEEE NaN (the only NaN sources in the program are the
  NOT_WATER cells and the constant fills, and every arithmetic operation
  performed propagates NaN, which the `Option` arithmetic below mirrors);
  `some q` represents the float `q`.  All float values arising are sums and
  products of small integers and the resolution, so exact rational
  arithmetic is a faithful model of the float computation.
* `scipy.ndimage.interpolation.rotate` is an external library (not part of
  this repository); it is modelled as an abstract parameter `rot` of the
  functions that call it, constrained where needed by its documented
  `reshape=False` contract of preserving the array shape.
-/

/-- Column-major 2-D float array: a list of columns of optional rationals. -/
abbrev Grid := List (List (Option ℚ))

/-- Float multiplication with NaN (`none`) propagation. -/
def optMul : Option ℚ → Option ℚ → Option ℚ
  | some a, some b => some (a * b)
  | _, _ => none

/-- Float addition with NaN (`none`) propagation. -/
def optAdd : Option ℚ → Option ℚ → Option ℚ
  | some a, some b => some (a + b)
  | _, _ => none

/-- Running sums starting from accumulator `s`: `np.cumsum` is `cumsumFrom 0`. -/
def cumsumFrom (s : ℚ) : List ℚ → List ℚ
  | [] => []
  | x :: xs => (s + x) :: cumsumFrom (s + x) xs

/-- The boolean mask `a = ~np.isnan(v)` cast to numbers, as summed by `np.cumsum`. -/
def nanIndicator (v : List (Option ℚ)) : List ℚ :=
  v.map (fun o => if o.isNone then 0 else 1)

/-- Fancy indexing `c[n]`: the elements of `c` at the positions where `v` is NaN. -/
def selectNan : List (Option ℚ) → List ℚ → List ℚ
  | none :: vs, x :: cs => x :: selectNan vs cs
  | some _ :: vs, _ :: cs => selectNan vs cs
  | _, _ => []

/-- `np.diff` of the list `p :: l`; `np.diff (0 :: l)` is `diffFrom 0 l`. -/
def diffFrom (p : ℚ) : List ℚ → List ℚ
  | [] => []
  | x :: xs => (x - p) :: diffFrom x xs

/-- The in-place assignment `v[n] = ds`: replace the NaN entries of `v`, in
order, by the successive elements of `ds`.  In the program the two lengths
always agree, so the final catch-all clause is never reached. -/
def fillNan : List (Option ℚ) → List ℚ → List ℚ
  | [], _ => []
  | some x :: vs, ds => x :: fillNan vs ds
  | none :: vs, d :: ds => d :: fillNan vs ds
  | none :: vs, [] => 0 :: fillNan vs []

/-- Lines 45-55 of `WindFetch.py` on the flattened vector `v`:
`n = isnan v`, `a = ~n`, `c = cumsum a`, `b = concat ([0], c[n])`,
`d = diff b`, `v[n] = -d`, result `x = cumsum v`. -/
def fetchFlat (v : List (Option ℚ)) : List ℚ :=
  let c := cumsumFrom 0 (nanIndicator v)
  let d := diffFrom 0 (selectNan v c)
  cumsumFrom 0 (fillNan v (d.map (fun t => -t)))

/-- `np.reshape (x, w.shape, order="F")`: cut the flat list `x` back into
pieces matching the column lengths of `shape`. -/
def splitLike (shape : Grid) (xs : List ℚ) : List (List ℚ) :=
  match shape with
  | [] => []
  | col :: rest => xs.take col.length :: splitLike rest (xs.drop col.length)

/-- `WaterBody._fetch_length_vect` (lines 40-57 of `WindFetch.py`):
`w = array * -1`, `v = w.flatten(order="F")`, the cumsum/diff computation of
`fetchFlat`, and finally `y = reshape(x, w.shape, order="F") * w * resolution`. -/
def fetch_length_vect (array : Grid) (resolution : ℚ) : Grid :=
  let w : Grid := array.map (fun col => col.map (fun o => optMul o (some (-1))))
  let x := fetchFlat w.flatten
  List.zipWith
    (fun wcol xcol =>
      List.zipWith (fun wv xv => optMul (optMul (some xv) wv) (some resolution)) wcol xcol)
    w (splitLike w x)

/-- Python slice `l[pw:-pw]`: empty when `pw = 0` (since `-0 = 0`), and
otherwise the elements from index `pw` up to `len - pw` (exclusive). -/
def sliceTrim (pw : ℕ) (l : List α) : List α :=
  if pw = 0 then [] else (l.drop pw).take (l.length - 2 * pw)

/-- `WaterBody.padding` (lines 26-38 of `WindFetch.py`).  Forward
(`inverse = false`): `np.pad(array, pad_width, "constant", fill_value)`,
which surrounds the 2-D array with a `pad_width`-cell border of the fill
value on all four sides.  Inverse: the slice `array[pad_width:-pad_width,
pad_width:-pad_width]`, with no use of `fill_value`. -/
def padding (array : Grid) (pad_width : ℕ) (fill_value : Option ℚ) (inverse : Bool) : Grid :=
  match inverse with
  | false =>
      let nrow := (array.headD []).length
      let fillCol := List.replicate (nrow + 2 * pad_width) fill_value
      List.replicate pad_width fillCol
        ++ array.map (fun c =>
              List.replicate pad_width fill_value ++ c ++ List.replicate pad_width fill_value)
        ++ List.replicate pad_width fillCol
  | true =>
      (sliceTrim pad_width array).map (sliceTrim pad_width)

/-- Line 14 of `WindFetch.py`: `np.where(landwater == water_id, -1, np.nan)`. -/
def mkMask (landwater : List (List ℚ)) (water_id : ℚ) : Grid :=
  landwater.map (fun col => col.map (fun v => if v = water_id then some (-1) else none))

/-- Exact integer square root by linear search (helper for `ceilSqrtSub`):
`isqrtAux fuel k` walks upward from `k` while `(k+1)^2` still fits below
`fuel + k + 1`. -/
def isqrtAux : ℕ → ℕ → ℕ
  | 0, k => k
  | fuel + 1, k => if (k + 1) * (k + 1) ≤ fuel + k + 1 then isqrtAux fuel (k + 1) else k

/-- Exact `⌊√n⌋` on naturals, kernel-computable. -/
def isqrt (n : ℕ) : ℕ := isqrtAux n 0

/-- Mathematical floor of a rational, via flooring integer division. -/
def qfloorZ (x : ℚ) : ℤ := Int.fdiv x.num x.den

/-- Mathematical ceiling of a rational. -/
def qceilZ (x : ℚ) : ℤ := -qfloorZ (-x)

/-- Exact value of `math.ceil(np.sqrt s - m)` for rationals `s ≥ 0` and `m`:
the unique integer `k` with `k - 1 < √s - m ≤ k`.  Using `√s = √(num·den)/den`
and the integer square root `r = ⌊√(num·den)⌋`, the answer is either
`⌈r/den - m⌉` or that plus one, decided by the exact test `k + m ≥ √s ↔
(k + m ≥ 0 ∧ (k + m)² ≥ s)`. -/
def ceilSqrtSub (s m : ℚ) : ℤ :=
  let t := s.num.toNat * s.den
  let r := isqrt t
  let lo := qceilZ ((r : ℚ) / (s.den : ℚ) - m)
  if 0 ≤ (lo : ℚ) + m ∧ s ≤ ((lo : ℚ) + m) ^ 2 then lo else lo + 1

/-- The fetch-engine instance built by `WaterBody.__init__`. -/
structure WaterBody where
  water_id : ℚ
  landwater : Grid
  resolution : ℚ
  estimated_pad : ℕ

/-- `WaterBody.__init__` (lines 12-24 of `WindFetch.py`): build the water
mask with `np.where(landwater == water_id, -1, np.nan)` and precompute
`estimated_pad = int(math.ceil(sqrt(xlen² + ylen²) - min(xlen, ylen)))`
where `xlen = resolution * ncol` and `ylen = resolution * nrow`.  In the
column-major representation `ncol` is the outer length and `nrow` the inner
length.  The value `ceil(√(x²+y²) - min(x,y))` is never negative (since
`√(x²+y²) ≥ |x| ≥ min(x,y)`), so the conversion `Int.toNat` is faithful to
Python's `int(...)`.  The constructor performs no validation of
`resolution`. -/
def WaterBody.init (landwater : List (List ℚ)) (water_id : ℚ) (resolution : ℚ) : WaterBody :=
  let mask := mkMask landwater water_id
  let ncol := mask.length
  let nrow := (mask.headD []).length
  let xlen := resolution * ncol
  let ylen := resolution * nrow
  let padwidth := ceilSqrtSub (xlen ^ 2 + ylen ^ 2) (min xlen ylen)
  ⟨water_id, mask, resolution, padwidth.toNat⟩

/-- Modelled from the spec: the claim-side (specification) fetch kernel for a
single column, §4.3 of the spec.  `true` encodes a WATER cell, `false` a
NOT_WATER cell; the accumulator `k` is the count of consecutive WATER cells
seen since the most recent NOT_WATER cell (or the top of the column).  Every
WATER cell is assigned `(k+1) * r` (its own run count times the resolution)
and every NOT_WATER cell is absent. -/
def specFetchCol (r : ℚ) (k : ℚ) : List Bool → List (Option ℚ)
  | [] => []
  | true :: rest => some ((k + 1) * r) :: specFetchCol r (k + 1) rest
  | false :: rest => none :: specFetchCol r 0 rest

/-- The WATER(-1)/NOT_WATER(NaN) encoding of a boolean column, exactly the
cell encoding produced by `mkMask`. -/
def encodeWater (bs : List Bool) : List (Option ℚ) :=
  bs.map (fun b => if b then some (-1) else none)

/-- Running water-run lengths with accumulator `k`: the reference value that
`fetchFlat` is proved to compute on an encoded column. -/
def runsQ (k : ℚ) : List Bool → List ℚ
  | [] => []
  | true :: rest => (k + 1) :: runsQ (k + 1) rest
  | false :: rest => 0 :: runsQ 0 rest

/-- The `w`-image of an encoded column under `array * -1`: WATER cells become
`some 1`, NOT_WATER cells stay NaN.  Reference value for the kernel proof. -/
def waterOnes (bs : List Bool) : List (Option ℚ) :=
  bs.map (fun b => if b then some 1 else none)

/-- Python float truthiness of an optional integer argument (`None` and `0`
are falsy). -/
def truthyZ : Option ℤ → Bool
  | none => false
  | some z => z != 0

/-- Python float truthiness of an optional rational argument (`None` and
`0.0` are falsy). -/
def truthyQ : Option ℚ → Bool
  | none => false
  | some q => q != 0

/-- Python `range(n)` for an integer bound, as integers (empty for `n ≤ 0`). -/
def rangeZ (n : ℤ) : List ℤ :=
  (List.range n.toNat).map Int.ofNat

/-- Python float modulo `x % 360`: the representative of `x` in `[0, 360)`,
computed with floor division as Python does. -/
def qmod360 (x : ℚ) : ℚ := x - 360 * qfloorZ (x / 360)

/-- `minor_dir_list` (lines 95-103 of `WindFetch.py`):
`minor_seq = [i * minor_interval for i in range(minor_directions)]`,
`minor_seq_mid = minor_seq[int(len(minor_seq) / 2)]`, and the flat list of
`(d + (i - minor_seq_mid)) % 360` for each requested direction `d` and each
`i` in `minor_seq`.  `none` models the `IndexError` raised by the middle
indexing when `minor_seq` is empty (`minor_directions < 0`, as `0` is
already filtered out by truthiness at the call site). -/
def minor_dir_list (directions : List ℚ) (minor_interval : ℚ) (minor_directions : ℤ) :
    Option (List ℚ) :=
  let minor_seq := (rangeZ minor_directions).map (fun (i : ℤ) => (i : ℚ) * minor_interval)
  match minor_seq.get? (minor_seq.length / 2) with
  | none => none
  | some minor_seq_mid =>
      some (directions.flatMap (fun d => minor_seq.map (fun i => qmod360 (d + (i - minor_seq_mid)))))

/-- `divide_chunks` (lines 105-107 of `WindFetch.py`): cut a list into
consecutive chunks of `n` elements (the last chunk possibly shorter). -/
def divide_chunks (n : ℕ) (l : List Grid) : List (List Grid) :=
  if h : l = [] ∨ n = 0 then [] else l.take n :: divide_chunks n (l.drop n)
termination_by l.length
decreasing_by
  push_neg at h
  have hn : 0 < n := Nat.pos_of_ne_zero h.2
  have hl : 0 < l.length := List.length_pos.mpr h.1
  simp only [List.length_drop]
  omega

/-- Elementwise float addition of two grids. -/
def gridAdd (a b : Grid) : Grid :=
  List.zipWith (List.zipWith optAdd) a b

/-- Elementwise multiplication of a grid by a scalar. -/
def gridScale (q : ℚ) (g : Grid) : Grid :=
  g.map (List.map (fun o => optMul o (some q)))

/-- `np.mean(np.stack gs, axis=0)`: the elementwise mean of a stack of
grids, i.e. the elementwise sum divided by the number of grids.  A NaN in
any member poisons the mean at that cell, as in numpy. -/
def meanStack (gs : List Grid) : Grid :=
  match gs with
  | [] => []
  | g :: rest => gridScale (1 / ((g :: rest).length : ℚ)) (rest.foldl gridAdd g)

/-- `np.dstack`: stack 2-D arrays along a third axis.  The result is indexed
row-first: entry `(i, j)` holds the list of the `(i, j)` cells of the bands
in order.  Row and column counts are read off the first band (all bands have
equal shape at every call site). -/
def dstack (bands : List Grid) : List (List (List (Option ℚ))) :=
  match bands with
  | [] => []
  | b :: _ =>
      (List.range (b.headD []).length).map (fun i =>
        (List.range b.length).map (fun j =>
          bands.map (fun g => (g.getD j []).getD i none)))

/-- `WaterBody._fetch_single_dir` (lines 59-83 of `WindFetch.py`): pad the
mask with NaN by `estimated_pad`, rotate by `angle`, run the kernel, rotate
back by `360 - angle`, and unpad by `estimated_pad` with fill `-resolution`.
The external `scipy.ndimage.interpolation.rotate` (nearest-neighbour,
`reshape=False`, NaN fill) is the abstract parameter `rot`, taking the angle
and the grid. -/
def fetch_single_dir (rot : ℚ → Grid → Grid) (wb : WaterBody) (angle : ℚ) : Grid :=
  let array_pad := padding wb.landwater wb.estimated_pad none false
  let array_rot := rot angle array_pad
  let array_fetch := fetch_length_vect array_rot wb.resolution
  let array_inv_rot := rot (360 - angle) array_fetch
  padding array_inv_rot wb.estimated_pad (some (-wb.resolution)) true

/-- `WaterBody.fetch` (lines 86-130 of `WindFetch.py`).  The branch guard is
Python's `if minor_interval and minor_directions`, i.e. both arguments
supplied and nonzero.  In the minor branch the expanded direction list is
computed by `minor_dir_list` (whose `IndexError` becomes `Except.error`),
one single-direction array is computed per expanded angle, the arrays are
grouped into chunks of `minor_directions` and each chunk is averaged.
Otherwise one array is computed per requested direction.  The bands are
finally stacked with `np.dstack`.  `directions` is already a list, matching
the normalization on line 93. -/
def WaterBody.fetch (rot : ℚ → Grid → Grid) (wb : WaterBody) (directions : List ℚ)
    (minor_directions : Option ℤ) (minor_interval : Option ℚ) :
    Except String (List (List (List (Option ℚ)))) :=
  if truthyQ minor_interval && truthyZ minor_directions then
    match minor_dir_list directions (minor_interval.getD 0) (minor_directions.getD 0) with
    | none => Except.error "IndexError: list index out of range"
    | some all_directions =>
        let all_dir_arrays := all_directions.map (fun d => fetch_single_dir rot wb d)
        let dir_arrays :=
          (divide_chunks (minor_directions.getD 0).toNat all_dir_arrays).map meanStack
        Except.ok (dstack dir_arrays)
  else
    Except.ok (dstack (directions.map (fun d => fetch_single_dir rot wb d)))

/-- A grid is rectangular with `R` rows and `C` columns: `C` columns, each of
length `R` (column-major representation). -/
def RectGrid (R C : ℕ) (g : Grid) : Prop :=
  g.length = C ∧ ∀ col ∈ g, col.length = R

/-- The documented `reshape=False` contract of `scipy.ndimage` rotation: the
output array has the same shape as the input, for any angle. -/
def ShapePreserving (rot : ℚ → Grid → Grid) : Prop :=
  ∀ (a : ℚ) (g : Grid) (R C : ℕ), RectGrid R C g → RectGrid R C (rot a g)

/-- A 3-D array has shape `(R, C, N)`: `R` rows, each of `C` cells, each
holding `N` band values. -/
def Shape3 (R C N : ℕ) (a : List (List (List (Option ℚ)))) : Prop :=
  a.length = R ∧ ∀ row ∈ a, row.length = C ∧ ∀ cell ∈ row, cell.length = N

/-- Concrete shape-preserving instantiation of the abstract rotation used to
evaluate the pipeline on explicit inputs: the identity map (what
`scipy.ndimage` rotation computes at angle 0 modulo 360  with
nearest-neighbour resampling and `reshape=False`). -/
def idRot : ℚ → Grid → Grid := fun _ g => g

example : fetchFlat [some 1, some 1, none, some 1] = [1, 2, 0, 1] := by
  simp [fetchFlat, nanIndicator, cumsumFrom, selectNan, diffFrom, fillNan]
  norm_num

example : fetch_length_vect [[some (-1), some (-1), none, some (-1)]] 1
    = [[some 1, some 2, none, some 1]] := by
  simp [fetch_length_vect, fetchFlat, nanIndicator, cumsumFrom, selectNan, diffFrom,
    fillNan, splitLike, optMul]
  norm_num

/-- Unfolding step: an encoded water cell. -/
theorem waterOnes_cons_true (rest : List Bool) :
    waterOnes (true :: rest) = some 1 :: waterOnes rest := rfl

/-- Unfolding step: an encoded land cell. -/
theorem waterOnes_cons_false (rest : List Bool) :
    waterOnes (false :: rest) = none :: waterOnes rest := rfl

/-- Unfolding step: a present cell counts `1` in the not-NaN mask. -/
theorem nanIndicator_cons_some (x : ℚ) (v : List (Option ℚ)) :
    nanIndicator (some x :: v) = 1 :: nanIndicator v := rfl

/-- Unfolding step: a NaN cell counts `0` in the not-NaN mask. -/
theorem nanIndicator_cons_none (v : List (Option ℚ)) :
    nanIndicator (none :: v) = 0 :: nanIndicator v := rfl

/-- Unfolding step for `cumsumFrom` at a cons cell. -/
theorem cumsumFrom_cons (s x : ℚ) (xs : List ℚ) :
    cumsumFrom s (x :: xs) = (s + x) :: cumsumFrom (s + x) xs := rfl

/-- Unfolding step for `selectNan` at a NaN cell. -/
theorem selectNan_cons_none (vs : List (Option ℚ)) (x : ℚ) (cs : List ℚ) :
    selectNan (none :: vs) (x :: cs) = x :: selectNan vs cs := rfl

/-- Unfolding step for `selectNan` at a present cell. -/
theorem selectNan_cons_some (a : ℚ) (vs : List (Option ℚ)) (x : ℚ) (cs : List ℚ) :
    selectNan (some a :: vs) (x :: cs) = selectNan vs cs := rfl

/-- Unfolding step for `diffFrom` at a cons cell. -/
theorem diffFrom_cons (p x : ℚ) (xs : List ℚ) :
    diffFrom p (x :: xs) = (x - p) :: diffFrom x xs := rfl

/-- Unfolding step for `fillNan` at a present cell. -/
theorem fillNan_cons_some (x : ℚ) (vs : List (Option ℚ)) (ds : List ℚ) :
    fillNan (some x :: vs) ds = x :: fillNan vs ds := rfl

/-- Unfolding step for `fillNan` at a NaN cell. -/
theorem fillNan_cons_none (vs : List (Option ℚ)) (d : ℚ) (ds : List ℚ) :
    fillNan (none :: vs) (d :: ds) = d :: fillNan vs ds := rfl

/-- Unfolding step for `runsQ` at a water cell. -/
theorem runsQ_cons_true (k : ℚ) (rest : List Bool) :
    runsQ k (true :: rest) = (k + 1) :: runsQ (k + 1) rest := rfl

/-- Unfolding step for `runsQ` at a land cell. -/
theorem runsQ_cons_false (k : ℚ) (rest : List Bool) :
    runsQ k (false :: rest) = 0 :: runsQ 0 rest := rfl

/-- Generalized invariant for the cumsum/diff trick of `fetchFlat`: on an
encoded column, with the cumulative-count accumulator at `s` and the
previous boundary value at `p`, the final cumulative sum computes exactly
the running water-run lengths started at `s - p`. -/
theorem fetchFlat_aux (bs : List Bool) : ∀ s p : ℚ,
    cumsumFrom (s - p)
      (fillNan (waterOnes bs)
        ((diffFrom p (selectNan (waterOnes bs)
            (cumsumFrom s (nanIndicator (waterOnes bs))))).map (fun t => -t)))
      = runsQ (s - p) bs := by
  induction bs with
  | nil =>
      intro s p
      simp [waterOnes, nanIndicator, cumsumFrom, selectNan, diffFrom, fillNan, runsQ]
  | cons b rest ih =>
      intro s p
      cases b with
      | true =>
          simp only [waterOnes_cons_true, nanIndicator_cons_some, cumsumFrom_cons,
            selectNan_cons_some, fillNan_cons_some, runsQ_cons_true]
          refine List.cons_eq_cons.mpr ⟨rfl, ?_⟩
          have key := ih (s + 1) p
          have hacc : s + 1 - p = s - p + 1 := by ring
          rw [hacc] at key
          exact key
      | false =>
          simp only [waterOnes_cons_false, nanIndicator_cons_none, cumsumFrom_cons,
            selectNan_cons_none, diffFrom_cons, List.map_cons, fillNan_cons_none,
            runsQ_cons_false]
          refine List.cons_eq_cons.mpr ⟨by ring, ?_⟩
          have key := ih (s + 0) (s + 0)
          have hacc : s - p + -(s + 0 - p) = s + 0 - (s + 0) := by ring
          rw [hacc]
          have hzero : s + 0 - (s + 0) = 0 := by ring
          rw [hzero] at key
          rw [hzero]
          exact key

/-- On an encoded column (water cells holding `1`, land cells NaN), the
flattened kernel computes the running water-run lengths. -/
theorem fetchFlat_waterOnes (bs : List Bool) : fetchFlat (waterOnes bs) = runsQ 0 bs := by
  have h := fetchFlat_aux bs 0 0
  simpa [fetchFlat] using h

/-- The first step `w = array * -1` of the kernel sends the WATER(-1)/NaN
encoding of a column to the water-ones encoding. -/
theorem encodeWater_mul_neg_one (bs : List Bool) :
    (encodeWater bs).map (fun o => optMul o (some (-1))) = waterOnes bs := by
  induction bs with
  | nil => simp [encodeWater, waterOnes]
  | cons b rest ih =>
      cases b <;> simp [encodeWater, waterOnes, optMul]

/-- `runsQ` preserves the column length. -/
theorem runsQ_length (bs : List Bool) : ∀ k : ℚ, (runsQ k bs).length = bs.length := by
  induction bs with
  | nil => intro k; rfl
  | cons b rest ih =>
      intro k
      cases b <;> simp [runsQ_cons_true, runsQ_cons_false, ih]

/-- Unfolding step for `optMul` on two present values. -/
theorem optMul_some_some (a b : ℚ) : optMul (some a) (some b) = some (a * b) := rfl

/-- Unfolding step for `specFetchCol` at a water cell. -/
theorem specFetchCol_cons_true (r k : ℚ) (rest : List Bool) :
    specFetchCol r k (true :: rest) = some ((k + 1) * r) :: specFetchCol r (k + 1) rest := rfl

/-- Unfolding step for `specFetchCol` at a land cell. -/
theorem specFetchCol_cons_false (r k : ℚ) (rest : List Bool) :
    specFetchCol r k (false :: rest) = none :: specFetchCol r 0 rest := rfl

/-- Zipping the water-ones column with its run lengths and applying the final
`x * w * resolution` step produces exactly the specification column. -/
theorem zip_runs_spec (r : ℚ) (bs : List Bool) : ∀ k : ℚ,
    List.zipWith (fun wv xv => optMul (optMul (some xv) wv) (some r))
      (waterOnes bs) (runsQ k bs) = specFetchCol r k bs := by
  induction bs with
  | nil => intro k; rfl
  | cons b rest ih =>
      intro k
      cases b with
      | true =>
          simp only [waterOnes_cons_true, runsQ_cons_true, List.zipWith_cons_cons,
            optMul_some_some, specFetchCol_cons_true]
          refine List.cons_eq_cons.mpr ⟨by norm_num, ih (k + 1)⟩
      | false =>
          simp only [waterOnes_cons_false, runsQ_cons_false, List.zipWith_cons_cons,
            specFetchCol_cons_false]
          exact List.cons_eq_cons.mpr ⟨rfl, ih 0⟩

/-- `waterOnes` preserves the column length. -/
theorem waterOnes_length (bs : List Bool) : (waterOnes bs).length = bs.length := by
  simp [waterOnes]

/-- C1.  For every single-column array encoded as WATER(-1)/NOT_WATER(NaN)
and every resolution `r`, the fetch kernel `_fetch_length_vect` assigns each
WATER cell the value `k * r`, where `k` is the count of consecutive WATER
cells from the most recent NOT_WATER cell (or the top of the column) down to
and including that cell (the content of `specFetchCol`), and leaves every
NOT_WATER cell absent; in particular the column `[WATER, WATER, NOT_WATER,
WATER]` with resolution 1 yields `[1, 2, absent, 1]`. -/
theorem fetch_length_vect_single_column :
    (∀ (bs : List Bool) (r : ℚ),
        fetch_length_vect [encodeWater bs] r = [specFetchCol r 0 bs])
    ∧ fetch_length_vect [[some (-1), some (-1), none, some (-1)]] 1
        = [[some 1, some 2, none, some 1]] := by
  constructor
  · intro bs r
    simp only [fetch_length_vect, List.map_cons, List.map_nil, encodeWater_mul_neg_one,
      List.flatten_cons, List.flatten_nil, List.append_nil, splitLike]
    rw [fetchFlat_waterOnes bs]
    rw [waterOnes_length, ← runsQ_length bs 0, List.take_length]
    simp only [List.zipWith_cons_cons, List.zipWith_nil_right]
    rw [zip_runs_spec r bs 0]
  · simp [fetch_length_vect, fetchFlat, nanIndicator, cumsumFrom, selectNan, diffFrom,
      fillNan, splitLike, optMul]
    norm_num

/-- Unfolding step: the forward branch of `padding`. -/
theorem padding_forward (array : Grid) (pw : ℕ) (f : Option ℚ) :
    padding array pw f false
      = List.replicate pw (List.replicate ((array.headD []).length + 2 * pw) f)
        ++ array.map (fun c => List.replicate pw f ++ c ++ List.replicate pw f)
        ++ List.replicate pw (List.replicate ((array.headD []).length + 2 * pw) f) := rfl

/-- Unfolding step: the inverse branch of `padding`. -/
theorem padding_inverse (array : Grid) (pw : ℕ) (f : Option ℚ) :
    padding array pw f true = (sliceTrim pw array).map (sliceTrim pw) := rfl

/-- Trimming `pw` from both ends of a list wrapped with two `pw`-length
blocks recovers the middle exactly. -/
theorem sliceTrim_wrap {α : Type} (pw : ℕ) (hpw : pw ≠ 0) (x : List α) (a : List α)
    (y : List α) (hx : x.length = pw) (hy : y.length = pw) :
    sliceTrim pw (x ++ a ++ y) = a := by
  unfold sliceTrim
  rw [if_neg hpw]
  have h1 : x ++ a ++ y = x ++ (a ++ y) := by rw [List.append_assoc]
  rw [h1, ← hx, List.drop_left]
  have h2 : (x ++ (a ++ y)).length - 2 * x.length = a.length := by
    simp only [List.length_append, hx, hy]
    omega
  rw [h2, List.take_left]

/-- C2 code-bug exhibit.  On the 2-by-2 all-water array the kernel's
cumulative sum carries over from the bottom of the first column into the top
of the second (yielding 3, 4 there), whereas the same column processed in
isolation yields 1, 2 — contradicting the per-column independence asserted
by the spec and by the comment on lines 51-53 of the source. -/
theorem fetch_length_vect_cross_column_carry :
    fetch_length_vect [[some (-1), some (-1)], [some (-1), some (-1)]] 1
        = [[some 1, some 2], [some 3, some 4]]
    ∧ fetch_length_vect [[some (-1), some (-1)]] 1 = [[some 1, some 2]] := by
  constructor
  · simp [fetch_length_vect, fetchFlat, nanIndicator, cumsumFrom, selectNan, diffFrom,
      fillNan, splitLike, optMul]
    norm_num
  · simp [fetch_length_vect, fetchFlat, nanIndicator, cumsumFrom, selectNan, diffFrom,
      fillNan, splitLike, optMul]
    norm_num

/-- C3.  For every 2-D array, every pad width at least 1, and any two fill
values, unpadding after padding with the same width is an exact identity
(cell-for-cell, NaN positions included); the fill used on the inverse call
is irrelevant. -/
theorem padding_pad_unpad_identity (array : Grid) (pw : ℕ) (f1 f2 : Option ℚ)
    (h : 1 ≤ pw) :
    padding (padding array pw f1 false) pw f2 true = array := by
  have hpw : pw ≠ 0 := by omega
  rw [padding_forward, padding_inverse]
  rw [sliceTrim_wrap pw hpw _ _ _ (List.length_replicate _ _) (List.length_replicate _ _)]
  rw [List.map_map]
  have hcols : ∀ c ∈ array,
      ((sliceTrim pw) ∘ fun c => List.replicate pw f1 ++ c ++ List.replicate pw f1) c
        = id c := by
    intro c _
    simp only [Function.comp_apply, id_eq]
    exact sliceTrim_wrap pw hpw _ _ _ (List.length_replicate _ _) (List.length_replicate _ _)
  rw [List.map_congr_left hcols, List.map_id]

/-- Witness for C3: a concrete 2-by-2 array with NaN cells, padded then
unpadded with width 1 and two different fills, is returned unchanged. -/
theorem padding_pad_unpad_identity_witness :
    padding (padding [[some 1, none], [none, some (-1)]] 1 none false) 1 (some 5) true
      = [[some 1, none], [none, some (-1)]] :=
  padding_pad_unpad_identity [[some 1, none], [none, some (-1)]] 1 none (some 5) (by decide)

/-- C10.  The inverse (unpad) branch of `padding` never reads its
`fill_value` argument: for every array, pad width and any two fills the
results coincide definitionally, so the `-resolution` fill passed on line 80
of the source cannot influence any cell of the final array. -/
theorem padding_inverse_ignores_fill (array : Grid) (pw : ℕ) (f1 f2 : Option ℚ) :
    padding array pw f1 true = padding array pw f2 true := rfl

/-- C7 counterexample: unpadding a 2-by-2 array with `pad_width = 1` (equal
to half of each dimension) silently returns the empty array instead of
raising a configuration error — no `PaddingTooLarge` check exists. -/
theorem padding_no_pad_width_check :
    padding [[some 1, some 2], [some 3, some 4]] 1 none true = [] := rfl

/-- C7 amended: `padding` performs no validation of `pad_width` on the
inverse path; it always returns the silently cropped remainder, whose column
count is the truncated difference `array.length - 2 * pad_width` (in
particular zero columns whenever `pad_width` is at least half the
dimension). -/
theorem padding_inverse_silent_crop (array : Grid) (pw : ℕ) (f : Option ℚ)
    (h : 1 ≤ pw) :
    (padding array pw f true).length = array.length - 2 * pw := by
  rw [padding_inverse, List.length_map]
  unfold sliceTrim
  rw [if_neg (by omega)]
  rw [List.length_take, List.length_drop]
  omega

/-- Witness for the amended C7: unpadding the 2-by-2 array with width 1
leaves `2 - 2 * 1 = 0` columns. -/
theorem padding_inverse_silent_crop_witness :
    (padding [[some 1, some 2], [some 3, some 4]] 1 none true).length
      = ([[some 1, some 2], [some 3, some 4]] : Grid).length - 2 * 1 :=
  padding_inverse_silent_crop [[some 1, some 2], [some 3, some 4]] 1 none (by decide)

/-- C4.  The Water Mask built at construction has value exactly -1 at
precisely the cells whose classification equals the water label and NaN
(absent) everywhere else, and has the same shape as the Classification Grid.
(The embedding is purely functional, so the input grid is never mutated.) -/
theorem mkMask_pointwise (grid : List (List ℚ)) (w : ℚ) :
    (mkMask grid w).length = grid.length
    ∧ ∀ (i j : ℕ) (col : List ℚ) (c : ℚ), grid[i]? = some col → col[j]? = some c →
        ∃ mcol, (mkMask grid w)[i]? = some mcol
          ∧ mcol.length = col.length
          ∧ mcol[j]? = some (if c = w then some (-1) else none) := by
  constructor
  · simp [mkMask]
  · intro i j col c hi hj
    refine ⟨col.map (fun v => if v = w then some (-1) else none), ?_, by simp, ?_⟩
    · simp [mkMask, List.getElem?_map, hi]
    · simp [List.getElem?_map, hj]

/-- Witness for C4 on the concrete grid `[[3, 7]]` with water label 7: the
cell equal to the label is mapped to -1 (and the mask column has the same
length). -/
theorem mkMask_pointwise_witness :
    ∃ mcol, (mkMask [[3, 7]] 7)[0]? = some mcol
      ∧ mcol.length = ([3, 7] : List ℚ).length
      ∧ mcol[1]? = some (if (7 : ℚ) = 7 then some (-1) else (none : Option ℚ)) :=
  (mkMask_pointwise [[3, 7]] 7).2 0 1 [3, 7] 7 rfl rfl

/-- C5 counterexample: constructing with resolution 0 does not raise; it
returns a fully formed instance, storing the mask and the degenerate
resolution unchanged.  No resolution validation exists in `__init__`. -/
theorem init_zero_resolution_no_error :
    (WaterBody.init [[1]] 1 0).resolution = 0
    ∧ (WaterBody.init [[1]] 1 0).water_id = 1
    ∧ (WaterBody.init [[1]] 1 0).landwater = [[some (-1)]] := by
  refine ⟨rfl, rfl, ?_⟩
  simp [WaterBody.init, mkMask]

/-- C5 amended: `__init__` performs no validation of `resolution` at all —
for every 2-D grid, water label and resolution (zero and negative values
included) construction succeeds and stores the mask, the label and the
resolution as given.  (A non-2-D input still fails in Python at the shape
unpacking on line 20, which the inherently 2-D `List (List ℚ)` embedding
cannot express; only the resolution clause of the claim is refuted.) -/
theorem init_no_resolution_validation (grid : List (List ℚ)) (w r : ℚ) :
    (WaterBody.init grid w r).landwater = mkMask grid w
    ∧ (WaterBody.init grid w r).resolution = r
    ∧ (WaterBody.init grid w r).water_id = w := ⟨rfl, rfl, rfl⟩

/-- Evaluation of `minor_dir_list` for a positive minor-direction count: the
middle indexing succeeds and picks the offset at index `minor_directions / 2`,
and the result is the flat list of wrapped, centered clusters. -/
theorem minor_dir_list_eq (dirs : List ℚ) (mi : ℚ) (md : ℤ) (h : 1 ≤ md) :
    minor_dir_list dirs mi md
      = some (dirs.flatMap (fun d =>
          ((rangeZ md).map (fun (i : ℤ) => (i : ℚ) * mi)).map
            (fun x => qmod360 (d + (x - ((md.toNat / 2 : ℕ) : ℚ) * mi))))) := by
  have hlen : ((rangeZ md).map (fun (i : ℤ) => (i : ℚ) * mi)).length = md.toNat := by
    simp [rangeZ]
  have hidx : md.toNat / 2 < md.toNat := by omega
  have hget : ((rangeZ md).map (fun (i : ℤ) => (i : ℚ) * mi)).get?
        (((rangeZ md).map (fun (i : ℤ) => (i : ℚ) * mi)).length / 2)
      = some (((md.toNat / 2 : ℕ) : ℚ) * mi) := by
    rw [hlen, List.get?_map, rangeZ, List.get?_map, List.get?_range hidx]
    simp only [Option.map_some']
    norm_cast
  simp only [minor_dir_list]
  rw [hget]

/-- C8.  With minor parameters supplied, the cluster of minor angles for
each requested direction `d` is exactly `(d + i * minor_interval -
minor_interval * (minor_directions // 2)) mod 360` for `i` in
`0 .. minor_directions - 1`; in particular for `minor_directions = 3`,
`minor_interval = 10` the cluster for `d` is `d - 10, d, d + 10` each
wrapped mod 360. -/
theorem minor_dir_list_centered :
    (∀ (dirs : List ℚ) (mi : ℚ) (md : ℤ), 1 ≤ md →
        minor_dir_list dirs mi md
          = some (dirs.flatMap (fun d =>
              (List.range md.toNat).map (fun (i : ℕ) =>
                qmod360 (d + (i : ℚ) * mi - mi * ((md.toNat / 2 : ℕ) : ℚ))))))
    ∧ ∀ d : ℚ, minor_dir_list [d] 10 3
        = some [qmod360 (d - 10), qmod360 d, qmod360 (d + 10)] := by
  constructor
  · intro dirs mi md h
    rw [minor_dir_list_eq dirs mi md h]
    congr 1
    have hFG : (fun d => ((rangeZ md).map (fun (i : ℤ) => (i : ℚ) * mi)).map
          (fun x => qmod360 (d + (x - ((md.toNat / 2 : ℕ) : ℚ) * mi))))
        = fun d => (List.range md.toNat).map (fun (i : ℕ) =>
            qmod360 (d + (i : ℚ) * mi - mi * ((md.toNat / 2 : ℕ) : ℚ))) := by
      funext d
      rw [rangeZ, List.map_map, List.map_map]
      apply List.map_congr_left
      intro k _
      simp only [Function.comp_apply]
      congr 1
      push_cast [Int.ofNat_eq_natCast]
      ring
    rw [hFG]
  · intro d
    rw [minor_dir_list_eq [d] 10 3 (by norm_num)]
    rw [show ((3 : ℤ).toNat / 2 : ℕ) = 1 from rfl]
    rw [show rangeZ 3 = [0, 1, 2] from rfl]
    simp only [List.map_cons, List.map_nil, List.flatMap_cons, List.flatMap_nil,
      List.append_nil]
    refine congrArg some ?_
    refine List.cons_eq_cons.mpr ⟨?_, List.cons_eq_cons.mpr ⟨?_, List.cons_eq_cons.mpr ⟨?_, rfl⟩⟩⟩
    · congr 1
      push_cast
      ring
    · congr 1
      push_cast
      ring
    · congr 1
      push_cast
      ring

/-- Witness for C8: the general cluster formula applied at direction list
`[0]`, interval 10 and three minor directions. -/
theorem minor_dir_list_centered_witness :
    minor_dir_list [0] 10 3
      = some (([0] : List ℚ).flatMap (fun d =>
          (List.range (3 : ℤ).toNat).map (fun (i : ℕ) =>
            qmod360 (d + (i : ℚ) * 10 - 10 * (((3 : ℤ).toNat / 2 : ℕ) : ℚ))))) :=
  minor_dir_list_centered.1 [0] 10 3 (by norm_num)

/-- C6 counterexample: calling `fetch` with `minor_directions` supplied but
`minor_interval` omitted does not raise; the guard
`if minor_interval and minor_directions` falls through to the plain branch
and a Fetch Stack is returned (here on a 1-cell water grid with pad 1 and
the identity rotation: the single band `[[some 1]]`). -/
theorem fetch_minor_pair_not_validated :
    WaterBody.fetch idRot ⟨1, [[some (-1)]], 1, 1⟩ [0] (some 3) none
      = Except.ok [[[some 1]]] := by
  simp only [WaterBody.fetch, truthyQ, truthyZ, Bool.false_and, Bool.and_false, ite_false,
    Bool.false_eq_true]
  simp [fetch_single_dir, padding_forward, padding_inverse, idRot, fetch_length_vect,
    fetchFlat, nanIndicator, cumsumFrom, selectNan, diffFrom, fillNan, splitLike, optMul,
    sliceTrim, dstack]
  norm_num [List.range_succ]

/-- C6 amended: `fetch` performs no both-or-neither validation of the minor
parameters.  When exactly one of them is supplied, or `minor_directions`
is 0, the Python guard `if minor_interval and minor_directions` is falsy and
`fetch` silently computes the plain per-direction stack, exactly as if no
minor parameters had been given.  The only failing combination is a
negative `minor_directions` together with a nonzero `minor_interval`,
which raises an `IndexError` (not a configuration error) from indexing the
empty offset list. -/
theorem fetch_single_minor_param_ignored (rot : ℚ → Grid → Grid) (wb : WaterBody)
    (dirs : List ℚ) :
    (∀ md : Option ℤ, WaterBody.fetch rot wb dirs md none
        = WaterBody.fetch rot wb dirs none none)
    ∧ (∀ mi : Option ℚ, WaterBody.fetch rot wb dirs none mi
        = WaterBody.fetch rot wb dirs none none)
    ∧ (∀ mi : Option ℚ, WaterBody.fetch rot wb dirs (some 0) mi
        = WaterBody.fetch rot wb dirs none none)
    ∧ ∀ (z : ℤ) (q : ℚ), z < 0 → q ≠ 0 →
        WaterBody.fetch rot wb dirs (some z) (some q)
          = Except.error "IndexError: list index out of range" := by
  refine ⟨?_, ?_, ?_, ?_⟩
  · intro md
    simp [WaterBody.fetch, truthyQ]
  · intro mi
    simp [WaterBody.fetch, truthyZ]
  · intro mi
    simp [WaterBody.fetch, truthyZ]
  · intro z q hz hq
    have ht : (truthyQ (some q) && truthyZ (some z)) = true := by
      simp [truthyQ, truthyZ, hq]
      omega
    have hnone : minor_dir_list dirs ((some q).getD 0) ((some z).getD 0) = none := by
      simp [minor_dir_list, rangeZ, Int.toNat_of_nonpos (le_of_lt hz)]
    simp only [WaterBody.fetch, ht, if_true]
    rw [hnone]

/-- Witness for the amended C6: a negative minor-direction count with a
supplied interval yields the IndexError outcome. -/
theorem fetch_single_minor_param_ignored_witness :
    WaterBody.fetch idRot ⟨1, [[some (-1)]], 1, 1⟩ [0] (some (-1)) (some 10)
      = Except.error "IndexError: list index out of range" :=
  (fetch_single_minor_param_ignored idRot ⟨1, [[some (-1)]], 1, 1⟩ [0]).2.2.2 (-1) 10
    (by norm_num) (by norm_num)

/-- `cumsumFrom` preserves length. -/
theorem cumsumFrom_length (l : List ℚ) : ∀ s : ℚ, (cumsumFrom s l).length = l.length := by
  induction l with
  | nil => intro s; rfl
  | cons x xs ih =>
      intro s
      rw [cumsumFrom_cons]
      simp [ih]

/-- `fillNan` preserves the length of the vector being filled. -/
theorem fillNan_length (v : List (Option ℚ)) : ∀ ds : List ℚ, (fillNan v ds).length = v.length := by
  induction v with
  | nil => intro ds; rfl
  | cons o rest ih =>
      intro ds
      cases o with
      | some x => simp [fillNan_cons_some, ih]
      | none =>
          cases ds with
          | nil => simp [fillNan, ih]
          | cons d ds => simp [fillNan_cons_none, ih]

/-- The flattened kernel preserves the length of its input vector. -/
theorem fetchFlat_length (v : List (Option ℚ)) : (fetchFlat v).length = v.length := by
  simp [fetchFlat, cumsumFrom_length, fillNan_length]

/-- Mapping a function over every cell preserves rectangularity. -/
theorem RectGrid_map_inner (R C : ℕ) (g : Grid) (f : Option ℚ → Option ℚ)
    (hg : RectGrid R C g) : RectGrid R C (g.map (fun col => col.map f)) := by
  obtain ⟨hlen, hcols⟩ := hg
  refine ⟨by simp [hlen], ?_⟩
  intro col hcol
  rw [List.mem_map] at hcol
  obtain ⟨c, hc, rfl⟩ := hcol
  simp [hcols c hc]

/-- Shape of the reshape-and-multiply step: when the flat vector has exactly
as many entries as the grid has cells, zipping the grid with its
`splitLike` pieces reproduces the grid's shape. -/
theorem zip_splitLike_shape (f : Option ℚ → ℚ → Option ℚ) (R : ℕ) :
    ∀ (w : Grid) (x : List ℚ), (∀ col ∈ w, col.length = R) →
      x.length = (w.map List.length).sum →
      (List.zipWith (fun wcol xcol => List.zipWith f wcol xcol) w (splitLike w x)).length
          = w.length
      ∧ ∀ col ∈ List.zipWith (fun wcol xcol => List.zipWith f wcol xcol) w (splitLike w x),
          col.length = R := by
  intro w
  induction w with
  | nil =>
      intro x _ _
      exact ⟨rfl, by intro col hcol; simp at hcol⟩
  | cons c rest ih =>
      intro x hcols hx
      rw [List.map_cons, List.sum_cons] at hx
      have hxc : c.length ≤ x.length := by omega
      have hdrop : (x.drop c.length).length = (rest.map List.length).sum := by
        rw [List.length_drop]
        omega
      have ihr := ih (x.drop c.length)
        (fun col hcol => hcols col (List.mem_cons_of_mem _ hcol)) hdrop
      constructor
      · simp only [splitLike, List.zipWith_cons_cons, List.length_cons]
        rw [ihr.1]
      · intro col hcol
        simp only [splitLike, List.zipWith_cons_cons] at hcol
        rcases List.mem_cons.mp hcol with rfl | h
        · rw [List.length_zipWith, List.length_take]
          have hc := hcols c (List.mem_cons_self c rest)
          omega
        · exact ihr.2 col h

/-- The kernel `_fetch_length_vect` preserves the shape of its input. -/
theorem fetch_length_vect_shape (R C : ℕ) (g : Grid) (r : ℚ) (hg : RectGrid R C g) :
    RectGrid R C (fetch_length_vect g r) := by
  have hw : RectGrid R C (g.map (fun col => col.map (fun o => optMul o (some (-1))))) :=
    RectGrid_map_inner R C g _ hg
  obtain ⟨hwlen, hwcols⟩ := hw
  have hx : (fetchFlat (g.map (fun col => col.map (fun o => optMul o (some (-1))))).flatten).length
      = ((g.map (fun col => col.map (fun o => optMul o (some (-1))))).map List.length).sum := by
    rw [fetchFlat_length, List.length_flatten]
  have hz := zip_splitLike_shape
    (fun wv xv => optMul (optMul (some xv) wv) (some r)) R
    (g.map (fun col => col.map (fun o => optMul o (some (-1))))) _ hwcols hx
  exact ⟨by rw [fetch_length_vect, hz.1, hwlen], fun col hcol => hz.2 col hcol⟩

/-- Forward padding turns an `R`-by-`C` grid (with at least one column) into
an `(R+2p)`-by-`(C+2p)` grid. -/
theorem padding_forward_shape (g : Grid) (p R C : ℕ) (f : Option ℚ)
    (hg : RectGrid R C g) (hC : 1 ≤ C) :
    RectGrid (R + 2 * p) (C + 2 * p) (padding g p f false) := by
  obtain ⟨hlen, hcols⟩ := hg
  have hhead : (g.headD []).length = R := by
    cases g with
    | nil => simp at hlen; omega
    | cons c rest => exact hcols c (List.mem_cons_self c rest)
  rw [padding_forward]
  constructor
  · simp only [List.length_append, List.length_replicate, List.length_map, hlen]
    omega
  · intro col hcol
    rcases List.mem_append.mp hcol with h | h
    · rcases List.mem_append.mp h with h2 | h2
      · have := List.eq_of_mem_replicate h2
        subst this
        rw [List.length_replicate, hhead]
      · rw [List.mem_map] at h2
        obtain ⟨c, hc, rfl⟩ := h2
        simp [hcols c hc]
        omega
    · have := List.eq_of_mem_replicate h
      subst this
      rw [List.length_replicate, hhead]

/-- Inverse padding (unpadding) turns an `(R+2p)`-by-`(C+2p)` grid back into
an `R`-by-`C` grid when `p ≥ 1`. -/
theorem padding_inverse_shape (g : Grid) (p R C : ℕ) (f : Option ℚ)
    (hg : RectGrid (R + 2 * p) (C + 2 * p) g) (hp : 1 ≤ p) :
    RectGrid R C (padding g p f true) := by
  obtain ⟨hlen, hcols⟩ := hg
  rw [padding_inverse]
  constructor
  · rw [List.length_map]
    unfold sliceTrim
    rw [if_neg (by omega), List.length_take, List.length_drop, hlen]
    omega
  · intro col hcol
    rw [List.mem_map] at hcol
    obtain ⟨c, hc, rfl⟩ := hcol
    have hcmem : c ∈ g := by
      unfold sliceTrim at hc
      rw [if_neg (by omega)] at hc
      exact List.drop_subset p g (List.take_subset _ _ hc)
    have hclen := hcols c hcmem
    unfold sliceTrim
    rw [if_neg (by omega), List.length_take, List.length_drop, hclen]
    omega

/-- A single-direction scan preserves the original grid shape: padding,
rotation (by the `reshape=False` contract), the kernel, inverse rotation and
unpadding compose to an `R`-by-`C`-shaped result. -/
theorem fetch_single_dir_shape (rot : ℚ → Grid → Grid) (wb : WaterBody) (R C : ℕ)
    (a : ℚ) (hrot : ShapePreserving rot) (hg : RectGrid R C wb.landwater)
    (hC : 1 ≤ C) (hp : 1 ≤ wb.estimated_pad) :
    RectGrid R C (fetch_single_dir rot wb a) := by
  unfold fetch_single_dir
  exact padding_inverse_shape _ _ _ _ _
    (hrot _ _ _ _
      (fetch_length_vect_shape _ _ _ _
        (hrot _ _ _ _
          (padding_forward_shape wb.landwater wb.estimated_pad R C none hg hC)))) hp

/-- Columns of an elementwise zip of two rectangular grids keep the row
count. -/
theorem zipWith_zipWith_cols (f : Option ℚ → Option ℚ → Option ℚ) (R : ℕ) :
    ∀ (a b : Grid), (∀ col ∈ a, col.length = R) → (∀ col ∈ b, col.length = R) →
      ∀ col ∈ List.zipWith (List.zipWith f) a b, col.length = R := by
  intro a
  induction a with
  | nil =>
      intro b _ _ col hcol
      simp at hcol
  | cons ca rest ih =>
      intro b ha hb col hcol
      cases b with
      | nil => simp at hcol
      | cons cb brest =>
          rw [List.zipWith_cons_cons] at hcol
          rcases List.mem_cons.mp hcol with rfl | h
          · rw [List.length_zipWith, ha ca (List.mem_cons_self _ _),
              hb cb (List.mem_cons_self _ _), Nat.min_self]
          · exact ih brest (fun c hc => ha c (List.mem_cons_of_mem _ hc))
              (fun c hc => hb c (List.mem_cons_of_mem _ hc)) col h

/-- `gridAdd` preserves a common rectangular shape. -/
theorem gridAdd_shape (R C : ℕ) (a b : Grid) (ha : RectGrid R C a) (hb : RectGrid R C b) :
    RectGrid R C (gridAdd a b) := by
  obtain ⟨hal, hac⟩ := ha
  obtain ⟨hbl, hbc⟩ := hb
  refine ⟨?_, ?_⟩
  · rw [gridAdd, List.length_zipWith, hal, hbl, Nat.min_self]
  · exact zipWith_zipWith_cols optAdd R a b hac hbc

/-- `gridScale` preserves shape. -/
theorem gridScale_shape (R C : ℕ) (q : ℚ) (g : Grid) (hg : RectGrid R C g) :
    RectGrid R C (gridScale q g) :=
  RectGrid_map_inner R C g _ hg

/-- Folding `gridAdd` over grids of a common shape keeps that shape. -/
theorem foldl_gridAdd_shape (R C : ℕ) :
    ∀ (l : List Grid) (g : Grid), RectGrid R C g → (∀ m ∈ l, RectGrid R C m) →
      RectGrid R C (l.foldl gridAdd g) := by
  intro l
  induction l with
  | nil => intro g hg _; exact hg
  | cons m rest ih =>
      intro g hg hl
      rw [List.foldl_cons]
      exact ih (gridAdd g m) (gridAdd_shape R C g m hg (hl m (List.mem_cons_self _ _)))
        (fun x hx => hl x (List.mem_cons_of_mem _ hx))

/-- The elementwise mean of a nonempty stack of grids of a common shape has
that shape. -/
theorem meanStack_shape (R C : ℕ) (gs : List Grid) (hne : gs ≠ [])
    (h : ∀ g ∈ gs, RectGrid R C g) : RectGrid R C (meanStack gs) := by
  cases gs with
  | nil => exact absurd rfl hne
  | cons g rest =>
      rw [meanStack]
      exact gridScale_shape R C _ _
        (foldl_gridAdd_shape R C rest g (h g (List.mem_cons_self _ _))
          (fun m hm => h m (List.mem_cons_of_mem _ hm)))

/-- `divide_chunks` of a list of length `N * n` (with `n ≥ 1`) yields
exactly `N` chunks. -/
theorem divide_chunks_length (n : ℕ) (hn : 1 ≤ n) :
    ∀ (N : ℕ) (l : List Grid), l.length = N * n → (divide_chunks n l).length = N := by
  intro N
  induction N with
  | zero =>
      intro l hl
      have : l = [] := List.eq_nil_of_length_eq_zero (by omega)
      rw [this, divide_chunks]
      simp
  | succ k ih =>
      intro l hl
      have hne : l ≠ [] := by
        intro h
        subst h
        simp at hl
        omega
      rw [divide_chunks, dif_neg (by push_neg; exact ⟨hne, by omega⟩)]
      have hdrop : (l.drop n).length = k * n := by
        rw [List.length_drop, hl, Nat.succ_mul]
        omega
      simp [ih (l.drop n) hdrop]

/-- Every chunk produced by `divide_chunks` is nonempty and draws its
members from the original list. -/
theorem divide_chunks_mem (n : ℕ) :
    ∀ (L : ℕ) (l : List Grid), l.length ≤ L → ∀ c ∈ divide_chunks n l,
      c ≠ [] ∧ ∀ g ∈ c, g ∈ l := by
  intro L
  induction L with
  | zero =>
      intro l hl c hc
      have : l = [] := List.eq_nil_of_length_eq_zero (by omega)
      subst this
      rw [divide_chunks] at hc
      simp at hc
  | succ k ih =>
      intro l hl c hc
      by_cases hcase : l = [] ∨ n = 0
      · rw [divide_chunks, dif_pos hcase] at hc
        simp at hc
      · rw [divide_chunks, dif_neg hcase] at hc
        push_neg at hcase
        rcases List.mem_cons.mp hc with rfl | h
        · constructor
          · rw [Ne, List.take_eq_nil_iff]
            push_neg
            exact ⟨hcase.2, hcase.1⟩
          · intro g hg
            exact List.take_subset n l hg
        · have hlen : (l.drop n).length ≤ k := by
            rw [List.length_drop]
            have h1 : 0 < n := Nat.pos_of_ne_zero hcase.2
            have h2 : 0 < l.length := List.length_pos.mpr hcase.1
            omega
          have := ih (l.drop n) hlen c h
          exact ⟨this.1, fun g hg => List.drop_subset n l (this.2 g hg)⟩

/-- Shape of `np.dstack`: with a first band of shape `R`-by-`C` (and `C ≥ 1`)
the stacked output is `(R, C, number of bands)`. -/
theorem dstack_shape (R C : ℕ) (b : Grid) (rest : List Grid)
    (hrect : RectGrid R C b) (hC : 1 ≤ C) :
    Shape3 R C (b :: rest).length (dstack (b :: rest)) := by
  obtain ⟨hlen, hcols⟩ := hrect
  have hhead : (b.headD []).length = R := by
    cases b with
    | nil => simp at hlen; omega
    | cons c cs => exact hcols c (List.mem_cons_self c cs)
  rw [dstack]
  refine ⟨by rw [List.length_map, List.length_range]; exact hhead, ?_⟩
  intro row hrow
  rw [List.mem_map] at hrow
  obtain ⟨i, _, rfl⟩ := hrow
  refine ⟨by simp [hlen], ?_⟩
  intro cell hcell
  rw [List.mem_map] at hcell
  obtain ⟨j, _, rfl⟩ := hcell
  simp

/-- The expanded direction list built by `minor_dir_list` has
`len(directions) * minor_directions` entries. -/
theorem minor_dir_list_length (dirs : List ℚ) (mi : ℚ) (md : ℤ) (h : 1 ≤ md) (l : List ℚ)
    (hl : minor_dir_list dirs mi md = some l) : l.length = dirs.length * md.toNat := by
  rw [minor_dir_list_eq dirs mi md h] at hl
  injection hl with hl
  subst hl
  rw [List.length_flatMap]
  have : ∀ d ∈ dirs,
      (((rangeZ md).map (fun (i : ℤ) => (i : ℚ) * mi)).map
        (fun x => qmod360 (d + (x - ((md.toNat / 2 : ℕ) : ℚ) * mi)))).length = md.toNat := by
    intro d _
    simp [rangeZ]
  have h2 : List.map (List.length ∘ fun d =>
        ((rangeZ md).map (fun (i : ℤ) => (i : ℚ) * mi)).map
          (fun x => qmod360 (d + (x - ((md.toNat / 2 : ℕ) : ℚ) * mi)))) dirs
      = List.map (fun _ => md.toNat) dirs := by
    apply List.map_congr_left
    intro d hd
    simp only [Function.comp_apply]
    exact this d hd
  rw [h2]
  simp [List.map_const', List.sum_replicate, smul_eq_mul, mul_comm]

/-- A nonempty list of `N` equal-shaped bands dstacks to shape `(R, C, N)`. -/
theorem dstack_bands_shape (R C N : ℕ) (bands : List Grid) (hC : 1 ≤ C)
    (hlen : bands.length = N) (hN : 1 ≤ N) (hrect : ∀ b ∈ bands, RectGrid R C b) :
    Shape3 R C N (dstack bands) := by
  cases bands with
  | nil => simp at hlen; omega
  | cons b rest =>
      have h := dstack_shape R C b rest (hrect b (List.mem_cons_self _ _)) hC
      rw [hlen] at h
      exact h

/-- `divide_chunks` applied to a flat concatenation of equal-length groups
recovers exactly those groups, in order. -/
theorem divide_chunks_flatMap (n : ℕ) (hn : 1 ≤ n) (f : ℚ → List Grid)
    (hf : ∀ d, (f d).length = n) :
    ∀ dirs : List ℚ, divide_chunks n (dirs.flatMap f) = dirs.map f := by
  intro dirs
  induction dirs with
  | nil =>
      rw [List.flatMap_nil, divide_chunks]
      simp
  | cons d rest ih =>
      rw [List.flatMap_cons]
      have hne : f d ++ rest.flatMap f ≠ [] := by
        intro h
        have hlen := congrArg List.length h
        simp [hf d] at hlen
        omega
      rw [divide_chunks, dif_neg (by push_neg; exact ⟨hne, by omega⟩)]
      have h1 : (f d ++ rest.flatMap f).take n = f d := by
        rw [← hf d]
        exact List.take_left _ _
      have h2 : (f d ++ rest.flatMap f).drop n = rest.flatMap f := by
        rw [← hf d]
        exact List.drop_left _ _
      rw [h1, h2, ih, List.map_cons]

/-- C9.  Under the external contracts (shape-preserving rotation, `R`-by-`C`
mask with at least one column, padding margin at least 1, nonempty request
list, non-negative minor count), `fetch` succeeds and returns the `dstack`
of a band list with exactly one band per requested direction, in request
order: without minor parameters the bands are the per-direction
single-direction arrays of the request list; with minor parameters band `k`
is the mean of the minor cluster of request `k`.  The stacked output has
shape `(R, C, number of requested directions)`. -/
theorem fetch_output_shape (rot : ℚ → Grid → Grid) (wb : WaterBody) (R C : ℕ)
    (dirs : List ℚ) (md : Option ℤ) (mi : Option ℚ)
    (hrot : ShapePreserving rot) (hg : RectGrid R C wb.landwater)
    (hC : 1 ≤ C) (hp : 1 ≤ wb.estimated_pad) (hd : dirs ≠ [])
    (hmd : ∀ z, md = some z → 0 ≤ z) :
    ∃ bands, WaterBody.fetch rot wb dirs md mi = Except.ok (dstack bands)
      ∧ bands.length = dirs.length
      ∧ Shape3 R C dirs.length (dstack bands)
      ∧ ((truthyQ mi && truthyZ md) = false →
            bands = dirs.map (fun d => fetch_single_dir rot wb d))
      ∧ (∀ z, md = some z → (truthyQ mi && truthyZ md) = true →
            bands = dirs.map (fun d => meanStack
              ((((rangeZ z).map (fun (i : ℤ) => (i : ℚ) * mi.getD 0)).map
                  (fun x => qmod360 (d + (x - ((z.toNat / 2 : ℕ) : ℚ) * mi.getD 0)))).map
                (fun a => fetch_single_dir rot wb a)))) := by
  have hdl : 1 ≤ dirs.length := List.length_pos.mpr hd
  by_cases hguard : (truthyQ mi && truthyZ md) = true
  · have hparts := hguard
    rw [Bool.and_eq_true] at hparts
    obtain ⟨hmi, hmz⟩ := hparts
    obtain ⟨z, rfl⟩ : ∃ z, md = some z := by
      cases md with
      | none => simp [truthyZ] at hmz
      | some z => exact ⟨z, rfl⟩
    have hz0 : z ≠ 0 := by
      simpa [truthyZ] using hmz
    have hz1 : 1 ≤ z := by
      have := hmd z rfl
      omega
    have hzn : 1 ≤ z.toNat := by omega
    have hlist := minor_dir_list_eq dirs (mi.getD 0) z hz1
    have hGlen : ∀ d : ℚ,
        ((((rangeZ z).map (fun (i : ℤ) => (i : ℚ) * mi.getD 0)).map
            (fun x => qmod360 (d + (x - ((z.toNat / 2 : ℕ) : ℚ) * mi.getD 0)))).map
          (fun a => fetch_single_dir rot wb a)).length = z.toNat := by
      intro d
      simp [rangeZ]
    have hchunks := divide_chunks_flatMap z.toNat hzn _ hGlen dirs
    refine ⟨dirs.map (fun d => meanStack
        ((((rangeZ z).map (fun (i : ℤ) => (i : ℚ) * mi.getD 0)).map
            (fun x => qmod360 (d + (x - ((z.toNat / 2 : ℕ) : ℚ) * mi.getD 0)))).map
          (fun a => fetch_single_dir rot wb a))), ?_, by rw [List.length_map], ?_, ?_, ?_⟩
    · simp only [WaterBody.fetch]
      rw [if_pos hguard]
      simp only [Option.getD_some]
      rw [hlist]
      simp only []
      rw [List.map_flatMap, hchunks, List.map_map]
      rfl
    · apply dstack_bands_shape R C dirs.length _ hC (by rw [List.length_map]) hdl
      intro band hband
      rw [List.mem_map] at hband
      obtain ⟨d, _, rfl⟩ := hband
      apply meanStack_shape R C _ ?_
      · intro m hm
        rw [List.mem_map] at hm
        obtain ⟨a, _, rfl⟩ := hm
        exact fetch_single_dir_shape rot wb R C a hrot hg hC hp
      · intro h
        have := congrArg List.length h
        rw [hGlen d] at this
        simp at this
        omega
    · intro hfalse
      rw [hguard] at hfalse
      cases hfalse
    · intro z2 hz2 _
      injection hz2 with hz2
      subst hz2
      rfl
  · refine ⟨dirs.map (fun d => fetch_single_dir rot wb d), ?_, by rw [List.length_map],
      ?_, fun _ => rfl, ?_⟩
    · simp only [WaterBody.fetch]
      rw [if_neg hguard]
    · apply dstack_bands_shape R C dirs.length _ hC (by rw [List.length_map]) hdl
      intro b hb
      rw [List.mem_map] at hb
      obtain ⟨d, _, rfl⟩ := hb
      exact fetch_single_dir_shape rot wb R C d hrot hg hC hp
    · intro z hz hguard2
      rw [hguard2] at hguard
      exact absurd rfl hguard

/-- The identity instantiation of the rotation parameter preserves shapes. -/
theorem idRot_shape_preserving : ShapePreserving idRot := fun _ _ _ _ h => h

/-- Witness for C9: on a concrete 2-by-2 all-water body with padding margin
1, `fetch` with one requested direction, three minor directions and
interval 5 returns the dstack of a 1-band list of shape `(2, 2, 1)` — the
minor cluster of the single requested direction averaged into one band. -/
theorem fetch_output_shape_witness :
    ∃ bands, WaterBody.fetch idRot
        ⟨1, [[some (-1), some (-1)], [some (-1), some (-1)]], 1, 1⟩
        [0] (some 3) (some 5) = Except.ok (dstack bands)
      ∧ bands.length = ([(0 : ℚ)].length)
      ∧ Shape3 2 2 ([(0 : ℚ)].length) (dstack bands)
      ∧ ((truthyQ (some 5) && truthyZ (some 3)) = false →
            bands = [(0 : ℚ)].map (fun d => fetch_single_dir idRot
              ⟨1, [[some (-1), some (-1)], [some (-1), some (-1)]], 1, 1⟩ d))
      ∧ (∀ z, (some 3 : Option ℤ) = some z →
            (truthyQ (some 5) && truthyZ (some 3)) = true →
            bands = [(0 : ℚ)].map (fun d => meanStack
              ((((rangeZ z).map (fun (i : ℤ) => (i : ℚ) * (some (5 : ℚ)).getD 0)).map
                  (fun x => qmod360 (d + (x - ((z.toNat / 2 : ℕ) : ℚ)
                    * (some (5 : ℚ)).getD 0)))).map
                (fun a => fetch_single_dir idRot
                  ⟨1, [[some (-1), some (-1)], [some (-1), some (-1)]], 1, 1⟩ a)))) :=
  fetch_output_shape idRot ⟨1, [[some (-1), some (-1)], [some (-1), some (-1)]], 1, 1⟩
    2 2 [0] (some 3) (some 5) idRot_shape_preserving
    (by simp [RectGrid]) (by decide) (by decide) (by simp)
    (by intro z h; injection h with h; omega)
